import Mathlib

/-!
Verification development for the DataVizHub data pipeline
(`src/utils/data_processor.py`, `src/utils/chart_generator.py`).

A pandas DataFrame cell is modelled by `Val`: a string, a numeric value
(modelled as an exact rational `Frac`; the claims under study concern
order, thresholds and exact sums, not float rounding), or a missing cell
(NaN). A DataFrame is a `Table`: an ordered list of column names plus a
list of rows.

Python/pandas behaviour that the model reproduces faithfully:
  - `pd.to_numeric(col, errors="coerce")` maps each cell to its numeric
    value or NaN (`parseNum`, modelled on nonnegative integer literals);
  - the `_clean_data` promotion rule divides the count of successfully
    coerced cells by `len(data)` (total row count);
  - comparisons: NaN compared to anything is `False`; a string compared
    with a number raises `TypeError` (modelled by `Except`);
  - `df.groupby(k)` with default arguments sorts the group keys ascending
    and drops rows whose key is missing (`dropna=True`);
  - `GroupBy.count` counts non-missing cells, `GroupBy.sum` of a group
    with no non-missing numeric values is 0, `mean`/`min`/`max` of such a
    group are NaN. Numeric reductions are modelled for numeric/missing
    cells, matching the numeric columns aggregation is used on.
-/

/-- Exact rational numbers with a positive denominator `dpred + 1`,
representing the numeric cell values (pandas floats; every float value is
a rational, and the claims under study concern order, thresholds and
exact sums, not rounding).  Kept unnormalized so that every operation is
kernel-computable; integer-valued data, the only kind the concrete tables
below carry, always has denominator 1, where representation equality and
value equality coincide (as they do for floats, whose representation is
canonical). -/
structure Frac : Type where
  num : Int
  dpred : Nat
deriving DecidableEq, Repr

/-- Denominator; positive by construction. -/
def Frac.den (a : Frac) : Nat := a.dpred + 1

/-- The integer `n` as a fraction. -/
def intF (n : Int) : Frac := ⟨n, 0⟩

def Frac.add (a b : Frac) : Frac :=
  ⟨a.num * (b.den : Int) + b.num * (a.den : Int), a.den * b.den - 1⟩

/-- `a ≤ b` by cross multiplication (denominators are positive). -/
def Frac.le (a b : Frac) : Bool :=
  decide (a.num * (b.den : Int) ≤ b.num * (a.den : Int))

/-- `a / n` for a positive natural `n` (used by `mean`). -/
def Frac.divNat (a : Frac) (n : Nat) : Frac := ⟨a.num, a.den * n - 1⟩

def sumF (l : List Frac) : Frac := l.foldl Frac.add (intF 0)

/-- Lexicographic order on code-point sequences: exactly Python's string
comparison, which pandas uses on string columns. -/
def lexLe : List Char → List Char → Bool
  | [], _ => true
  | _ :: _, [] => false
  | a :: as, b :: bs =>
    if a.toNat < b.toNat then true
    else if b.toNat < a.toNat then false
    else lexLe as bs

def strLe (x y : String) : Bool := lexLe x.data y.data

inductive Val : Type where
  | str (s : String)
  | num (q : Frac)
  | missing
deriving DecidableEq, Repr

/-- The integer `n` as a numeric cell. -/
def vnum (n : Int) : Val := Val.num (intF n)

/-- Cell of a row at column index `i`; out-of-range reads are missing. -/
def cellAt (r : List Val) (i : Nat) : Val :=
  r.getD i Val.missing

structure Table : Type where
  cols : List String
  rows : List (List Val)
deriving DecidableEq, Repr

/-- Index of a column name in a table's header, as pandas column lookup. -/
def colIdx (t : Table) (c : String) : Option Nat :=
  t.cols.findIdx? (fun s => s == c)

/-- Total order used by pandas when sorting homogeneous keys: numbers by
value, strings lexicographically, missing (NaN) last.  The cross-kind
cases are an arbitrary completion (pandas raises on mixed-type sorts). -/
def Val.le (a b : Val) : Bool :=
  match a, b with
  | Val.num x, Val.num y => Frac.le x y
  | Val.num _, Val.str _ => true
  | Val.num _, Val.missing => true
  | Val.str _, Val.num _ => false
  | Val.str x, Val.str y => strLe x y
  | Val.str _, Val.missing => true
  | Val.missing, Val.missing => true
  | Val.missing, Val.num _ => false
  | Val.missing, Val.str _ => false

def Val.leP (a b : Val) : Prop := Val.le a b = true

instance : DecidableRel Val.leP := fun a b => by
  unfold Val.leP; infer_instance

/-! ### TypeInferenceLoader: `DataProcessor._clean_data`, numeric promotion

`src/utils/data_processor.py` lines 56-63.  A raw textual column is a
`List (Option String)` (`none` = missing cell).  `len(data)` in the source
is the row count of the frame, i.e. the length of the column. -/

/-- Decimal digit test (`Char.isDigit`, spelled out over code points). -/
def isDigitChar (c : Char) : Bool :=
  48 ≤ c.toNat && c.toNat ≤ 57

/-- Model of `pd.to_numeric(cell, errors="coerce")` on one cell, for
nonnegative integer literals: a digit string coerces, anything else
becomes missing. -/
def parseNum (s : String) : Option Frac :=
  if s.data ≠ [] ∧ s.data.all isDigitChar then
    some (intF ((s.data.foldl (fun n c => 10 * n + (c.toNat - 48)) 0 : Nat) : Int))
  else
    none

/-- `pd.to_numeric(data[col], errors="coerce")`: the whole column coerced,
unconvertible or missing cells becoming missing. -/
def numericSeries (cells : List (Option String)) : List (Option Frac) :=
  cells.map (fun c => c.bind parseNum)

/-- `numeric_series.notna().sum()`: how many cells coerced successfully. -/
def coercedCount (cells : List (Option String)) : Nat :=
  (numericSeries cells).countP (fun v => v.isSome)

/-- Number of non-missing cells of the raw textual column. -/
def nonMissingCount (cells : List (Option String)) : Nat :=
  cells.countP (fun c => c.isSome)

inductive Column : Type where
  | textCol (cells : List (Option String))
  | numCol (cells : List (Option Frac))
deriving DecidableEq, Repr

/-- The numeric-promotion step of `_clean_data` on one textual column:
guard `not numeric_series.isna().all()`, then promote when
`numeric_series.notna().sum() / len(data) > 0.5`.  The division is by the
frame's row count, written here as the integer inequality
`2 * coerced > length`; for an empty column both the source's guard and
this inequality reject. -/
def cleanNumericColumn (cells : List (Option String)) : Column :=
  if 2 * coercedCount cells > cells.length then
    Column.numCol (numericSeries cells)
  else
    Column.textCol cells

/-- The promotion condition as the spec words it: the fraction of
successfully-coerced NON-MISSING cells exceeds 0.5.  Stated for comparison
with the source's condition, which divides by the total row count. -/
def specNumericThreshold (cells : List (Option String)) : Prop :=
  2 * coercedCount cells > nonMissingCount cells

/-! ### FilterEngine: `DataProcessor.apply_filters`

`src/utils/data_processor.py` lines 80-106.  A filter value is a list
(membership), a 2-tuple (range) or anything else (no branch taken).
Pandas comparison of a cell against a range bound either yields a Bool or
raises `TypeError` (string against number); NaN compares `False`.  A
raised exception is modelled by `Except.error`. -/

inductive ColumnFilter : Type where
  | membership (allowed : List Val)
  | range (lo hi : Val)
  | other
deriving DecidableEq, Repr

/-- `cell >= bound` as pandas evaluates it on a numeric column: NaN on
either side gives `False`; a string against a number raises. -/
def geVal (cell bound : Val) : Except String Bool :=
  match cell, bound with
  | Val.missing, _ => Except.ok false
  | _, Val.missing => Except.ok false
  | Val.num a, Val.num b => Except.ok (Frac.le b a)
  | Val.str a, Val.str b => Except.ok (strLe b a)
  | _, _ => Except.error "TypeError"

/-- `cell <= bound`, same regime as `geVal`. -/
def leVal (cell bound : Val) : Except String Bool :=
  match cell, bound with
  | Val.missing, _ => Except.ok false
  | _, Val.missing => Except.ok false
  | Val.num a, Val.num b => Except.ok (Frac.le a b)
  | Val.str a, Val.str b => Except.ok (strLe a b)
  | _, _ => Except.error "TypeError"

/-- The row mask entry `(cell >= min_val) & (cell <= max_val)`. -/
def rowKeepRange (cell lo hi : Val) : Except String Bool := do
  let a ← geVal cell lo
  let b ← leVal cell hi
  return (a && b)

/-- A fallible Bool collapsed to a Bool (false on error). -/
def okBool {ε : Type} (e : Except ε Bool) : Bool :=
  match e with
  | Except.ok b => b
  | Except.error _ => false

/-- `rowKeepRange` collapsed to a Bool (used to describe the surviving
rows when no comparison raised). -/
def rangeKeepB (cell lo hi : Val) : Bool :=
  okBool (rowKeepRange cell lo hi)

/-- One iteration of the `for column, filter_value in filters.items()`
loop: skip a column not in the frame, `isin` for a list, range mask for a
2-tuple, nothing otherwise. -/
def applyOneFilter (t : Table) (c : String) (f : ColumnFilter) :
    Except String Table :=
  match colIdx t c with
  | none => Except.ok t
  | some i =>
    match f with
    | ColumnFilter.membership allowed =>
        Except.ok ⟨t.cols, t.rows.filter (fun r => allowed.contains (cellAt r i))⟩
    | ColumnFilter.range lo hi => do
        let mask ← t.rows.mapM (fun r => rowKeepRange (cellAt r i) lo hi)
        return ⟨t.cols, ((t.rows.zip mask).filter (fun p => p.2)).map (fun p => p.1)⟩
    | ColumnFilter.other => Except.ok t

/-- `DataProcessor.apply_filters`: `data.copy()` (value semantics), then
the filter entries applied in order with logical AND. -/
def apply_filters (t : Table) (filters : List (String × ColumnFilter)) :
    Except String Table :=
  filters.foldlM (fun acc e => applyOneFilter acc e.1 e.2) t

def isErr {ε α : Type} (e : Except ε α) : Bool :=
  match e with
  | Except.ok _ => false
  | Except.error _ => true

/-- Every range entry of the filter set compares without `TypeError`
against every cell of its column of `t` (e.g. numeric bounds applied to a
numeric-or-missing column): the condition under which `apply_filters`
cannot raise. -/
def rangeEntriesComparable (t : Table)
    (filters : List (String × ColumnFilter)) : Bool :=
  filters.all (fun e =>
    match e.2 with
    | ColumnFilter.range lo hi =>
      match colIdx t e.1 with
      | some i =>
        t.rows.all (fun r => !(isErr (rowKeepRange (cellAt r i) lo hi)))
      | none => true
    | _ => true)

instance {ε α : Type} [DecidableEq ε] [DecidableEq α] :
    DecidableEq (Except ε α) := fun x y =>
  match x, y with
  | Except.ok a, Except.ok b =>
    if h : a = b then isTrue (by rw [h])
    else isFalse (fun he => h (Except.ok.inj he))
  | Except.ok a, Except.error e => isFalse (fun he => Except.noConfusion he)
  | Except.error e, Except.ok a => isFalse (fun he => Except.noConfusion he)
  | Except.error e, Except.error e2 =>
    if h : e = e2 then isTrue (by rw [h])
    else isFalse (fun he => h (Except.error.inj he))

/-! ### AggregationEngine: `DataProcessor.aggregate_data`

`src/utils/data_processor.py` lines 108-141.  `data.groupby(k)[v].f()`
with pandas defaults: rows whose key is missing are dropped
(`dropna=True`), the remaining distinct keys are sorted ascending
(`sort=True`), and the reduction ignores missing cells.  `.reset_index()`
turns the key back into the first column, and the source then renames the
second column to `f"{agg_function}_{agg_column}"`. -/

/-- Distinct non-missing group keys of a key column, sorted ascending, as
`groupby` with `sort=True, dropna=True` produces them. -/
def groupKeys (keyCells : List Val) : List Val :=
  List.insertionSort Val.leP ((keyCells.filter (fun v => v ≠ Val.missing)).dedup)

/-- The target cells of the rows whose key cell equals `k`. -/
def groupVals (t : Table) (gi ti : Nat) (k : Val) : List Val :=
  (t.rows.filter (fun r => cellAt r gi == k)).map (fun r => cellAt r ti)

/-- The non-missing values of a group. -/
def presentVals (vs : List Val) : List Val :=
  vs.filter (fun v => v ≠ Val.missing)

/-- The numeric values of a group. -/
def numsOf (vs : List Val) : List Frac :=
  vs.filterMap (fun v => match v with | Val.num q => some q | _ => none)

/-- A pandas `GroupBy` reduction over one group's target cells:
`count` = number of non-missing cells; `sum` over no numeric values is 0;
`mean` of no numeric values is NaN; `min`/`max` over non-missing cells
(lexicographic on strings, NaN when the group is all-missing). -/
def reduceVals (func : String) (vs : List Val) : Val :=
  if func == "count" then
    vnum ((presentVals vs).length : Int)
  else if func == "sum" then
    Val.num (sumF (numsOf vs))
  else if func == "mean" then
    match numsOf vs with
    | [] => Val.missing
    | q :: qs => Val.num (Frac.divNat (sumF (q :: qs)) (q :: qs).length)
  else if func == "min" then
    match presentVals vs with
    | [] => Val.missing
    | v :: rest => rest.foldl (fun a b => if Val.le a b then a else b) v
  else if func == "max" then
    match presentVals vs with
    | [] => Val.missing
    | v :: rest => rest.foldl (fun a b => if Val.le a b then b else a) v
  else
    Val.missing

inductive AggError : Type where
  | unknownFunction (func : String)
  | columnNotFound (col : String)
deriving DecidableEq, Repr

def supportedFuncs : List String :=
  ["count", "sum", "mean", "min", "max"]

/-- `DataProcessor.aggregate_data`.  An unknown function name hits the
`else: raise ValueError(...)` branch of the dispatch; with a known
function, `data.groupby(group_by_column)` raises `KeyError` when the key
column is absent, then `[agg_column]` raises when the target is absent
(both wrapped by the source into a generic exception whose message keeps
the two kinds apart; the model keeps them apart as constructors). -/
def aggregate_data (t : Table) (groupBy target func : String) :
    Except AggError Table :=
  if ¬ (supportedFuncs.contains func) then
    Except.error (AggError.unknownFunction func)
  else
    match colIdx t groupBy with
    | none => Except.error (AggError.columnNotFound groupBy)
    | some gi =>
      match colIdx t target with
      | none => Except.error (AggError.columnNotFound target)
      | some ti =>
        Except.ok ⟨[groupBy, func ++ "_" ++ target],
          (groupKeys (t.rows.map (fun r => cellAt r gi))).map
            (fun k => [k, reduceVals func (groupVals t gi ti k)])⟩

/-! ### ChartMapper: `ChartGenerator.create_chart`

`src/utils/chart_generator.py` lines 10-184.  A chart spec is the
`config` dict; unset fields are `None`, and the source's truthiness tests
(`if not x_col`) also treat the empty string as unset.  A produced figure
is modelled by the table handed to plotly express (after the line chart's
sort and the pie chart's groupby-sum) plus the chart kind and the
synthesized title; the diagnostic path `_create_empty_chart(message)` is
the `placeholder` constructor. -/

structure ChartConfig : Type where
  x : Option String := none
  y : Option String := none
  color : Option String := none
  size : Option String := none
  vals : Option String := none
  names : Option String := none
deriving DecidableEq, Repr

/-- Python truthiness of `config.get(field)`: unset or empty string. -/
def isBlank (o : Option String) : Bool :=
  match o with
  | none => true
  | some s => s == ""

structure Chart : Type where
  kind : String
  chartData : Table
  title : String
deriving DecidableEq, Repr

inductive ChartResult : Type where
  | chart (c : Chart)
  | placeholder (msg : String)
deriving DecidableEq, Repr

def isPlaceholder (r : ChartResult) : Bool :=
  match r with
  | ChartResult.chart _ => false
  | ChartResult.placeholder _ => true

/-- `data.sort_values(by=x_col)`: rows reordered by ascending value in
column `i`, NaN last (the model's sort is insertion sort; the source's
quicksort yields the same column-`i` order). -/
def sortRowsBy (t : Table) (i : Nat) : Table :=
  ⟨t.cols, List.insertionSort (fun r s => Val.leP (cellAt r i) (cellAt s i)) t.rows⟩

/-- `data.groupby(names_col)[values_col].sum().reset_index()` of the pie
branch: one row per distinct non-missing name (keys sorted by groupby),
carrying the sum of the group's numeric values. -/
def pieTable (t : Table) (ni vi : Nat) (namesCol valuesCol : String) : Table :=
  ⟨[namesCol, valuesCol],
    (groupKeys (t.rows.map (fun r => cellAt r ni))).map
      (fun k => [k, reduceVals "sum" (groupVals t ni vi k)])⟩

/-- `ChartGenerator._create_bar_chart`. -/
def createBarChart (t : Table) (cfg : ChartConfig) : ChartResult :=
  if isBlank cfg.x || isBlank cfg.y then
    ChartResult.placeholder "Please select X and Y axes for bar chart"
  else
    let xc := cfg.x.getD ""
    let yc := cfg.y.getD ""
    if !(t.cols.contains xc) || !(t.cols.contains yc) then
      ChartResult.placeholder "Selected columns not found in data"
    else
      ChartResult.chart ⟨"bar", t, "Bar Chart: " ++ yc ++ " by " ++ xc⟩

/-- `ChartGenerator._create_line_chart`: same checks as bar, then the
rows are sorted by the x column before the figure is built. -/
def createLineChart (t : Table) (cfg : ChartConfig) : ChartResult :=
  if isBlank cfg.x || isBlank cfg.y then
    ChartResult.placeholder "Please select X and Y axes for line chart"
  else
    let xc := cfg.x.getD ""
    let yc := cfg.y.getD ""
    match colIdx t xc with
    | none => ChartResult.placeholder "Selected columns not found in data"
    | some i =>
      if !(t.cols.contains yc) then
        ChartResult.placeholder "Selected columns not found in data"
      else
        ChartResult.chart
          ⟨"line", sortRowsBy t i, "Line Chart: " ++ yc ++ " over " ++ xc⟩

/-- `ChartGenerator._create_scatter_chart`. -/
def createScatterChart (t : Table) (cfg : ChartConfig) : ChartResult :=
  if isBlank cfg.x || isBlank cfg.y then
    ChartResult.placeholder "Please select X and Y axes for scatter plot"
  else
    let xc := cfg.x.getD ""
    let yc := cfg.y.getD ""
    if !(t.cols.contains xc) || !(t.cols.contains yc) then
      ChartResult.placeholder "Selected columns not found in data"
    else
      ChartResult.chart ⟨"scatter", t, "Scatter Plot: " ++ yc ++ " vs " ++ xc⟩

/-- `ChartGenerator._create_pie_chart`: checks on `values`/`names`, then
the groupby-sum aggregation feeds the figure. -/
def createPieChart (t : Table) (cfg : ChartConfig) : ChartResult :=
  if isBlank cfg.vals || isBlank cfg.names then
    ChartResult.placeholder "Please select Values and Names for pie chart"
  else
    let vc := cfg.vals.getD ""
    let nc := cfg.names.getD ""
    match colIdx t nc with
    | none => ChartResult.placeholder "Selected columns not found in data"
    | some ni =>
      match colIdx t vc with
      | none => ChartResult.placeholder "Selected columns not found in data"
      | some vi =>
        ChartResult.chart
          ⟨"pie", pieTable t ni vi nc vc, "Pie Chart: " ++ vc ++ " by " ++ nc⟩

/-- `ChartGenerator.create_chart`: the empty-frame guard, the dispatch on
chart kind, and the fallback message for an unknown kind.  The source's
`try/except` wrapper converts any exception from the branches into a
placeholder; the modelled branches are total, so the wrapper adds no
case here. -/
def create_chart (t : Table) (chartType : String) (cfg : ChartConfig) :
    ChartResult :=
  if t.rows.isEmpty || t.cols.isEmpty then
    ChartResult.placeholder "No data available"
  else if chartType == "bar" then createBarChart t cfg
  else if chartType == "line" then createLineChart t cfg
  else if chartType == "scatter" then createScatterChart t cfg
  else if chartType == "pie" then createPieChart t cfg
  else ChartResult.placeholder ("Unsupported chart type: " ++ chartType)

/-- The table a produced figure was built from (junk for a placeholder). -/
def resultTable (r : ChartResult) : Table :=
  match r with
  | ChartResult.chart c => c.chartData
  | ChartResult.placeholder _ => ⟨[], []⟩

/-! ### Concrete inputs used in the closed theorems below -/

/-- C1 counterexample input: two cells, one coercible, one missing.  All
non-missing cells coerce (fraction 1 > 0.5), yet the column stays
textual because the source divides by the total row count (1/2). -/
def c1Cells : List (Option String) := [some "1", none]

/-- C2 counterexample input: group "B" appears before group "A". -/
def c2Table : Table :=
  ⟨["g", "v"], [[Val.str "B", vnum 1], [Val.str "A", vnum 2]]⟩

/-- Closed instance of `C2_agg_sorted` at the spec's sample table. -/
def sampleTable : Table :=
  ⟨["Category", "Value"],
    [[Val.str "A", vnum 100], [Val.str "B", vnum 150],
     [Val.str "A", vnum 120]]⟩

def sampleAggOut : Table :=
  ⟨["Category", "sum_Value"],
    [[Val.str "A", vnum 220], [Val.str "B", vnum 150]]⟩

/-- C3 counterexample inputs: a row whose group key is missing, and a
group whose target values are all missing. -/
def c3MissingKey : Table := ⟨["g", "v"], [[Val.missing, vnum 1]]⟩

def c3AllMissing : Table := ⟨["g", "v"], [[Val.str "A", Val.missing]]⟩

/-- Concrete instance for `C3_agg_group_semantics`: one group "A" with 7
present and 3 missing target values; the count row reads 7. -/
def c3CountTable : Table :=
  ⟨["g", "v"],
    [[Val.str "A", vnum 1], [Val.str "A", vnum 2], [Val.str "A", vnum 3],
     [Val.str "A", Val.missing], [Val.str "A", vnum 4],
     [Val.str "A", Val.missing], [Val.str "A", vnum 5],
     [Val.str "A", vnum 6], [Val.str "A", Val.missing],
     [Val.str "A", vnum 7]]⟩

/-- A single-column table holding one string cell; a numeric range filter
on it makes pandas raise a `TypeError`. -/
def strColTable : Table := ⟨["a"], [[Val.str "x"]]⟩

/-- A table with a numeric column "a" (one cell missing) and a string
column "b", filtered by `1 <= a <= 5` in the closed theorems below. -/
def filterTable : Table :=
  ⟨["a", "b"],
    [[vnum 3, Val.str "x"], [vnum 9, Val.str "y"],
     [Val.missing, Val.str "z"]]⟩

/-- Line-chart input with x values 3, 1, 2 in that order. -/
def lineTable : Table :=
  ⟨["x", "y"],
    [[vnum 3, vnum 30], [vnum 1, vnum 10], [vnum 2, vnum 20]]⟩

def lineCfg : ChartConfig := ⟨some "x", some "y", none, none, none, none⟩

/-- Pie-chart input with two rows named "A" valued 3 and 4, and one row
named "B" valued 5. -/
def pieTbl : Table :=
  ⟨["n", "v"],
    [[Val.str "A", vnum 3], [Val.str "A", vnum 4], [Val.str "B", vnum 5]]⟩

def pieCfg : ChartConfig := ⟨none, none, none, none, some "v", some "n"⟩

/-! ### Helper lemmas -/

theorem contains_iff_mem {l : List String} {a : String} :
    l.contains a = true ↔ a ∈ l :=
  List.elem_iff

theorem colIdx_eq_none_iff {t : Table} {c : String} :
    colIdx t c = none ↔ ¬ (c ∈ t.cols) := by
  unfold colIdx
  rw [List.findIdx?_eq_none_iff]
  constructor
  · intro h hm
    have := h c hm
    simp at this
  · intro h s hs
    simp only [beq_eq_false_iff_ne, ne_eq]
    intro he
    exact h (he ▸ hs)

theorem except_bind_ok {ε α β : Type} (a : α) (g : α → Except ε β) :
    (Except.ok a >>= g) = g a := rfl

theorem except_bind_error {ε α β : Type} (e : ε) (g : α → Except ε β) :
    ((Except.error e : Except ε α) >>= g) = Except.error e := rfl

theorem except_pure {ε α : Type} (a : α) :
    (pure a : Except ε α) = Except.ok a := rfl

theorem applyOneFilter_none_eq {t : Table} {c : String}
    (hc : colIdx t c = none) (f : ColumnFilter) :
    applyOneFilter t c f = Except.ok t := by
  unfold applyOneFilter
  rw [hc]

theorem applyOneFilter_membership_eq {t : Table} {c : String} {i : Nat}
    (hc : colIdx t c = some i) (allowed : List Val) :
    applyOneFilter t c (ColumnFilter.membership allowed) =
      Except.ok ⟨t.cols, t.rows.filter (fun r => allowed.contains (cellAt r i))⟩ := by
  unfold applyOneFilter
  rw [hc]

theorem applyOneFilter_other_eq {t : Table} {c : String} {i : Nat}
    (hc : colIdx t c = some i) :
    applyOneFilter t c ColumnFilter.other = Except.ok t := by
  unfold applyOneFilter
  rw [hc]

theorem applyOneFilter_range_eq {t : Table} {c : String} {i : Nat}
    (hc : colIdx t c = some i) (lo hi : Val) :
    applyOneFilter t c (ColumnFilter.range lo hi) =
      (t.rows.mapM (fun r => rowKeepRange (cellAt r i) lo hi)) >>= (fun mask =>
        pure ⟨t.cols, ((t.rows.zip mask).filter (fun p => p.2)).map (fun p => p.1)⟩) := by
  unfold applyOneFilter
  rw [hc]

theorem apply_filters_cons (t : Table) (e : String × ColumnFilter)
    (fs : List (String × ColumnFilter)) :
    apply_filters t (e :: fs) =
      applyOneFilter t e.1 e.2 >>= (fun u => apply_filters u fs) := by
  unfold apply_filters
  rw [List.foldlM_cons]

theorem mapM_mask_filter {ε α : Type} (f : α → Except ε Bool) :
    ∀ (l : List α) (mask : List Bool), l.mapM f = Except.ok mask →
      ((l.zip mask).filter (fun p => p.2)).map (fun p => p.1) =
        l.filter (fun a => okBool (f a)) := by
  intro l
  induction l with
  | nil =>
    intro mask h
    rw [List.mapM_nil, except_pure] at h
    injection h with h
    subst h
    rfl
  | cons a l ih =>
    intro mask h
    rw [List.mapM_cons] at h
    cases hfa : f a with
    | error e => rw [hfa, except_bind_error] at h; exact absurd h (by simp)
    | ok b =>
      rw [hfa, except_bind_ok] at h
      cases hl : l.mapM f with
      | error e => rw [hl, except_bind_error] at h; exact absurd h (by simp)
      | ok bs =>
        rw [hl, except_bind_ok, except_pure] at h
        injection h with h
        subst h
        have htail := ih bs hl
        cases b with
        | false =>
          rw [List.zip_cons_cons, List.filter_cons_of_neg (by simp),
            List.filter_cons_of_neg (by simp [okBool, hfa])]
          exact htail
        | true =>
          rw [List.zip_cons_cons, List.filter_cons_of_pos (by simp),
            List.filter_cons_of_pos (by simp [okBool, hfa])]
          simpa using htail

theorem mapM_ok_of_all {ε α β : Type} (f : α → Except ε β) :
    ∀ l : List α, (∀ a ∈ l, isErr (f a) = false) →
      ∃ bs, l.mapM f = Except.ok bs := by
  intro l
  induction l with
  | nil => exact fun _ => ⟨[], by rw [List.mapM_nil, except_pure]⟩
  | cons a l ih =>
    intro h
    obtain ⟨bs, hbs⟩ := ih (fun x hx => h x (List.mem_cons_of_mem a hx))
    have ha := h a (List.mem_cons_self a l)
    cases hfa : f a with
    | error e => rw [hfa] at ha; exact absurd ha (by simp [isErr])
    | ok b =>
      refine ⟨b :: bs, ?_⟩
      rw [List.mapM_cons, hfa, except_bind_ok, hbs, except_bind_ok, except_pure]

theorem applyOneFilter_cols {t u : Table} {c : String} {f : ColumnFilter}
    (h : applyOneFilter t c f = Except.ok u) : u.cols = t.cols := by
  cases hc : colIdx t c with
  | none =>
    rw [applyOneFilter_none_eq hc] at h
    injection h with h
    subst h
    rfl
  | some i =>
    cases f with
    | membership allowed =>
      rw [applyOneFilter_membership_eq hc] at h
      injection h with h
      subst h
      rfl
    | other =>
      rw [applyOneFilter_other_eq hc] at h
      injection h with h
      subst h
      rfl
    | range lo hi =>
      rw [applyOneFilter_range_eq hc] at h
      cases hm : t.rows.mapM (fun r => rowKeepRange (cellAt r i) lo hi) with
      | error e => rw [hm, except_bind_error] at h; exact absurd h (by simp)
      | ok mask =>
        rw [hm, except_bind_ok, except_pure] at h
        injection h with h
        subst h
        rfl

theorem applyOneFilter_rows {t u : Table} {c : String} {f : ColumnFilter}
    (h : applyOneFilter t c f = Except.ok u) :
    ∀ r ∈ u.rows, r ∈ t.rows := by
  cases hc : colIdx t c with
  | none =>
    rw [applyOneFilter_none_eq hc] at h
    injection h with h
    subst h
    exact fun r hr => hr
  | some i =>
    cases f with
    | membership allowed =>
      rw [applyOneFilter_membership_eq hc] at h
      injection h with h
      subst h
      intro r hr
      exact (List.mem_filter.mp hr).1
    | other =>
      rw [applyOneFilter_other_eq hc] at h
      injection h with h
      subst h
      exact fun r hr => hr
    | range lo hi =>
      rw [applyOneFilter_range_eq hc] at h
      cases hm : t.rows.mapM (fun r => rowKeepRange (cellAt r i) lo hi) with
      | error e => rw [hm, except_bind_error] at h; exact absurd h (by simp)
      | ok mask =>
        rw [hm, except_bind_ok, except_pure] at h
        injection h with h
        subst h
        intro r hr
        simp only [List.mem_map] at hr
        obtain ⟨p, hp, rfl⟩ := hr
        exact (List.of_mem_zip (List.mem_filter.mp hp).1).1

theorem applyRange_ok {t : Table} {c : String} {i : Nat} {lo hi : Val}
    {t' : Table} (hc : colIdx t c = some i)
    (h : apply_filters t [(c, ColumnFilter.range lo hi)] = Except.ok t') :
    t'.cols = t.cols ∧
      t'.rows = t.rows.filter (fun r => rangeKeepB (cellAt r i) lo hi) := by
  rw [apply_filters_cons] at h
  cases ha : applyOneFilter t c (ColumnFilter.range lo hi) with
  | error e => rw [ha, except_bind_error] at h; exact absurd h (by simp)
  | ok u =>
    rw [ha, except_bind_ok] at h
    have hu : u = t' := by
      have : apply_filters u [] = Except.ok u := rfl
      rw [this] at h
      exact Except.ok.inj h
    subst hu
    rw [applyOneFilter_range_eq hc] at ha
    cases hm : t.rows.mapM (fun r => rowKeepRange (cellAt r i) lo hi) with
    | error e => rw [hm, except_bind_error] at ha; exact absurd ha (by simp)
    | ok mask =>
      rw [hm, except_bind_ok, except_pure] at ha
      injection ha with ha
      subst ha
      exact ⟨rfl, mapM_mask_filter _ t.rows mask hm⟩

theorem apply_filters_ignores (t : Table)
    (fs : List (String × ColumnFilter)) :
    apply_filters t fs =
      apply_filters t (fs.filter (fun e => t.cols.contains e.1)) := by
  induction fs generalizing t with
  | nil => rfl
  | cons e fs ih =>
    rw [apply_filters_cons]
    by_cases hc : t.cols.contains e.1 = true
    · have hfil : List.filter (fun e2 : String × ColumnFilter =>
          t.cols.contains e2.1) (e :: fs) =
            e :: List.filter (fun e2 => t.cols.contains e2.1) fs := by
        simp only [List.filter_cons, if_pos hc]
      rw [hfil, apply_filters_cons]
      cases ha : applyOneFilter t e.1 e.2 with
      | error msg => rw [except_bind_error, except_bind_error]
      | ok u =>
        rw [except_bind_ok, except_bind_ok, ih u,
          applyOneFilter_cols ha]
    · have hnone : colIdx t e.1 = none := by
        rw [colIdx_eq_none_iff]
        intro hm
        exact hc (contains_iff_mem.mpr hm)
      have hfil : List.filter (fun e2 : String × ColumnFilter =>
          t.cols.contains e2.1) (e :: fs) =
            List.filter (fun e2 => t.cols.contains e2.1) fs := by
        simp only [List.filter_cons, if_neg hc]
      rw [hfil, applyOneFilter_none_eq hnone, except_bind_ok]
      exact ih t

theorem apply_filters_no_error_aux (t : Table) :
    ∀ (fs : List (String × ColumnFilter)) (u : Table),
      u.cols = t.cols → (∀ r ∈ u.rows, r ∈ t.rows) →
      rangeEntriesComparable t fs = true →
      isErr (apply_filters u fs) = false := by
  intro fs
  induction fs with
  | nil => intro u _ _ _; rfl
  | cons e fs ih =>
    intro u hcols hrows hcomp
    unfold rangeEntriesComparable at hcomp
    rw [List.all_cons, Bool.and_eq_true] at hcomp
    obtain ⟨he, hrest⟩ := hcomp
    rw [apply_filters_cons]
    cases haf : applyOneFilter u e.1 e.2 with
    | ok v =>
      rw [except_bind_ok]
      exact ih v (by rw [applyOneFilter_cols haf, hcols])
        (fun r hr => hrows r (applyOneFilter_rows haf r hr)) hrest
    | error msg =>
      exfalso
      cases hci : colIdx u e.1 with
      | none =>
        rw [applyOneFilter_none_eq hci] at haf
        exact Except.noConfusion haf
      | some i =>
        have hcit : colIdx t e.1 = some i := by
          unfold colIdx at hci ⊢
          rw [← hcols]
          exact hci
        cases hf : e.2 with
        | membership allowed =>
          rw [hf, applyOneFilter_membership_eq hci] at haf
          exact Except.noConfusion haf
        | other =>
          rw [hf, applyOneFilter_other_eq hci] at haf
          exact Except.noConfusion haf
        | range lo hi =>
          rw [hf, applyOneFilter_range_eq hci] at haf
          have hall : ∀ r ∈ u.rows,
              isErr (rowKeepRange (cellAt r i) lo hi) = false := by
            intro r hr
            have hmem := hrows r hr
            simp only [hf, hcit] at he
            have := List.all_eq_true.mp he r hmem
            simpa using this
          obtain ⟨bs, hbs⟩ := mapM_ok_of_all _ u.rows hall
          rw [hbs, except_bind_ok, except_pure] at haf
          exact Except.noConfusion haf

theorem Frac.den_int_pos (a : Frac) : (0 : Int) < (a.den : Int) := by
  have : 0 < a.den := Nat.succ_pos a.dpred
  exact_mod_cast this

theorem Frac.le_total' (a b : Frac) : a.le b = true ∨ b.le a = true := by
  simp only [Frac.le, decide_eq_true_eq]
  exact le_total _ _

theorem Frac.le_trans' {a b c : Frac} (h1 : a.le b = true)
    (h2 : b.le c = true) : a.le c = true := by
  simp only [Frac.le, decide_eq_true_eq] at h1 h2 ⊢
  have ha := Frac.den_int_pos a
  have hb := Frac.den_int_pos b
  have hc := Frac.den_int_pos c
  nlinarith [mul_le_mul_of_nonneg_right h1 (le_of_lt hc),
    mul_le_mul_of_nonneg_right h2 (le_of_lt ha)]

theorem lexLe_total : ∀ x y : List Char, lexLe x y = true ∨ lexLe y x = true := by
  intro x
  induction x with
  | nil => intro y; left; rfl
  | cons a as ih =>
    intro y
    cases y with
    | nil => right; rfl
    | cons b bs =>
      simp only [lexLe]
      by_cases hab : a.toNat < b.toNat
      · left; simp [hab]
      · by_cases hba : b.toNat < a.toNat
        · right; simp [hba]
        · rcases ih bs with h | h
          · left; simp [hab, hba, h]
          · right; simp [hab, hba, h]

theorem lexLe_trans : ∀ {x y z : List Char},
    lexLe x y = true → lexLe y z = true → lexLe x z = true := by
  intro x
  induction x with
  | nil => intro y z h1 h2; rfl
  | cons a as ih =>
    intro y z h1 h2
    cases y with
    | nil => simp [lexLe] at h1
    | cons b bs =>
      cases z with
      | nil => simp [lexLe] at h2
      | cons c cs =>
        simp only [lexLe] at h1 h2 ⊢
        by_cases hab : a.toNat < b.toNat
        · by_cases hbc : b.toNat < c.toNat
          · have hac : a.toNat < c.toNat := Nat.lt_trans hab hbc
            simp [hac]
          · rw [if_neg hbc] at h2
            by_cases hcb : c.toNat < b.toNat
            · rw [if_pos hcb] at h2; exact absurd h2 (by simp)
            · have hac : a.toNat < c.toNat := by omega
              simp [hac]
        · rw [if_neg hab] at h1
          by_cases hba : b.toNat < a.toNat
          · rw [if_pos hba] at h1; exact absurd h1 (by simp)
          · rw [if_neg hba] at h1
            by_cases hbc : b.toNat < c.toNat
            · have hac : a.toNat < c.toNat := by omega
              simp [hac]
            · rw [if_neg hbc] at h2
              by_cases hcb : c.toNat < b.toNat
              · rw [if_pos hcb] at h2; exact absurd h2 (by simp)
              · rw [if_neg hcb] at h2
                have hac : ¬ a.toNat < c.toNat := by omega
                have hca : ¬ c.toNat < a.toNat := by omega
                rw [if_neg hac, if_neg hca]
                exact ih h1 h2

theorem strLe_total (x y : String) : strLe x y = true ∨ strLe y x = true :=
  lexLe_total x.data y.data

theorem strLe_trans {x y z : String} (h1 : strLe x y = true)
    (h2 : strLe y z = true) : strLe x z = true :=
  lexLe_trans h1 h2

theorem valLe_total (a b : Val) : Val.leP a b ∨ Val.leP b a := by
  cases a <;> cases b <;> simp [Val.leP, Val.le] <;>
    first
      | exact Frac.le_total' _ _
      | exact strLe_total _ _

theorem valLe_trans {a b c : Val} (h1 : Val.leP a b) (h2 : Val.leP b c) :
    Val.leP a c := by
  cases a <;> cases b <;> cases c <;>
    simp_all [Val.leP, Val.le] <;>
    first
      | exact Frac.le_trans' h1 h2
      | exact strLe_trans h1 h2



/-! ### C1: numeric promotion threshold -/

/-- **C1, counterexample.**  The claim promotes a column exactly when the
fraction of successfully-coerced NON-MISSING cells exceeds 0.5.  On
`c1Cells` that fraction is 1, yet `_clean_data` leaves the column
textual: the source divides the coerced count by `len(data)`. -/
theorem C1_counterexample :
    specNumericThreshold c1Cells ∧
      cleanNumericColumn c1Cells = Column.textCol c1Cells := by
  constructor
  · show 2 * coercedCount c1Cells > nonMissingCount c1Cells
    decide
  · decide

/-- **C1, amended.**  A textual column is replaced by its numeric
interpretation (unconvertible cells missing) if and only if the count of
successfully-coerced cells exceeds half of the TOTAL row count (missing
cells included in the denominator); at exactly one half the column stays
textual. -/
theorem C1_clean_threshold (cells : List (Option String)) :
    (cleanNumericColumn cells = Column.numCol (numericSeries cells) ↔
      2 * coercedCount cells > cells.length) ∧
    (2 * coercedCount cells = cells.length →
      cleanNumericColumn cells = Column.textCol cells) := by
  constructor
  · by_cases h : 2 * coercedCount cells > cells.length <;>
      simp [cleanNumericColumn, h]
  · intro h
    unfold cleanNumericColumn
    rw [if_neg]
    omega

/-! ### C2: aggregation output order -/

/-- **C2, counterexample.**  The claim puts groups in first-appearance
order, so "B" would come first; `groupby` with its default `sort=True`
puts "A" first. -/
theorem C2_counterexample :
    aggregate_data c2Table "g" "v" "sum" =
      Except.ok ⟨["g", "sum_v"],
        [[Val.str "A", vnum 2], [Val.str "B", vnum 1]]⟩ ∧
    cellAt (c2Table.rows.getD 0 []) 0 = Val.str "B" := by
  constructor
  · decide
  · rfl

/-- **C2, amended.**  The rows of an aggregation result are ordered by
ascending group-key value (pandas `groupby` sorts its keys), with one row
per distinct key — not by first appearance in the input. -/
theorem C2_agg_sorted (t : Table) (g v f : String) (t' : Table)
    (h : aggregate_data t g v f = Except.ok t') :
    List.Sorted Val.leP (t'.rows.map (fun r => cellAt r 0)) ∧
    (t'.rows.map (fun r => cellAt r 0)).Nodup := by
  unfold aggregate_data at h
  split at h
  · exact absurd h (by simp)
  · rename_i hf
    cases hg : colIdx t g with
    | none => rw [hg] at h; exact absurd h (by simp)
    | some gi =>
      rw [hg] at h
      cases hv : colIdx t v with
      | none => rw [hv] at h; exact absurd h (by simp)
      | some ti =>
        rw [hv] at h
        injection h with h
        subst h
        simp only [List.map_map]
        have hmap : ((fun r => cellAt r 0) ∘
            fun k => [k, reduceVals f (groupVals t gi ti k)]) = id := by
          funext k
          rfl
        rw [hmap, List.map_id]
        unfold groupKeys
        haveI : IsTotal Val Val.leP := ⟨valLe_total⟩
        haveI : IsTrans Val Val.leP := ⟨fun _ _ _ => valLe_trans⟩
        refine ⟨List.sorted_insertionSort Val.leP _, ?_⟩
        rw [(List.perm_insertionSort Val.leP _).nodup_iff]
        exact List.nodup_dedup _

theorem C2_agg_sorted_witness :
    List.Sorted Val.leP (sampleAggOut.rows.map (fun r => cellAt r 0)) ∧
    (sampleAggOut.rows.map (fun r => cellAt r 0)).Nodup :=
  C2_agg_sorted sampleTable "Category" "Value" "sum" sampleAggOut (by decide)

/-! ### C3: aggregation group semantics -/

theorem mem_groupKeys_ne_missing {k : Val} {cells : List Val}
    (h : k ∈ groupKeys cells) : k ≠ Val.missing := by
  unfold groupKeys at h
  rw [List.mem_insertionSort, List.mem_dedup, List.mem_filter] at h
  simpa using h.2

theorem numsOf_eq_nil {vs : List Val} (h : presentVals vs = []) :
    numsOf vs = [] := by
  induction vs with
  | nil => rfl
  | cons v vs ih =>
    cases v with
    | str s => simp [presentVals] at h
    | num q => simp [presentVals] at h
    | missing =>
      have h2 : presentVals vs = [] := by simpa [presentVals] using h
      simpa [numsOf] using ih h2

/-- **C3, counterexample.**  The claim gives missing-key rows their own
group and a missing sum for an all-missing partition.  The code drops
the missing-key row entirely (no output row at all), and sums an
all-missing partition to 0, not missing. -/
theorem C3_counterexample :
    aggregate_data c3MissingKey "g" "v" "count" =
      Except.ok ⟨["g", "count_v"], []⟩ ∧
    aggregate_data c3AllMissing "g" "v" "sum" =
      Except.ok ⟨["g", "sum_v"], [[Val.str "A", vnum 0]]⟩ := by
  constructor
  · decide
  · decide

/-- **C3, amended.**  Rows whose group key is missing are dropped by the
aggregation (pandas `dropna=True`), not grouped on their own; within each
produced group, `count` is the number of non-missing target values;
`mean`/`min`/`max` of a partition with zero non-missing target values
yield a missing result (never an error), while `sum` of such a partition
yields 0. -/
theorem C3_agg_group_semantics (t : Table) (g v f : String)
    (gi ti : Nat) (t' : Table)
    (hg : colIdx t g = some gi) (hv : colIdx t v = some ti)
    (h : aggregate_data t g v f = Except.ok t') :
    (∀ r ∈ t'.rows, cellAt r 0 ≠ Val.missing) ∧
    (f = "count" → ∀ r ∈ t'.rows,
      cellAt r 1 = vnum ((presentVals (groupVals t gi ti (cellAt r 0))).length : Int)) ∧
    (f = "sum" → ∀ r ∈ t'.rows,
      presentVals (groupVals t gi ti (cellAt r 0)) = [] → cellAt r 1 = vnum 0) ∧
    ((f = "mean" ∨ f = "min" ∨ f = "max") → ∀ r ∈ t'.rows,
      presentVals (groupVals t gi ti (cellAt r 0)) = [] →
        cellAt r 1 = Val.missing) := by
  unfold aggregate_data at h
  rw [hg, hv] at h
  split at h
  · exact absurd h (by simp)
  · injection h with h
    subst h
    simp only [List.mem_map]
    refine ⟨?_, ?_, ?_, ?_⟩
    · rintro r ⟨k, hk, rfl⟩
      exact mem_groupKeys_ne_missing hk
    · rintro hf r ⟨k, hk, rfl⟩
      subst hf
      show reduceVals "count" (groupVals t gi ti k) =
        vnum ((presentVals (groupVals t gi ti k)).length : Int)
      rfl
    · rintro hf r ⟨k, hk, rfl⟩
      intro hnil
      subst hf
      show reduceVals "sum" (groupVals t gi ti k) = vnum 0
      have : numsOf (groupVals t gi ti k) = [] := by
        apply numsOf_eq_nil
        simpa using hnil
      simp [reduceVals, this, sumF, vnum]
    · rintro hf r ⟨k, hk, rfl⟩
      intro hnil
      have hnil2 : presentVals (groupVals t gi ti k) = [] := by simpa using hnil
      have hnums : numsOf (groupVals t gi ti k) = [] := numsOf_eq_nil hnil2
      show reduceVals f (groupVals t gi ti k) = Val.missing
      rcases hf with hf | hf | hf <;> subst hf <;>
        simp [reduceVals, hnil2, hnums]

theorem C3_agg_group_semantics_witness :
    cellAt [Val.str "A", vnum 7] 1 =
      vnum ((presentVals
        (groupVals c3CountTable 0 1 (cellAt [Val.str "A", vnum 7] 0))).length : Int) :=
  (C3_agg_group_semantics c3CountTable "g" "v" "count" 0 1
      ⟨["g", "count_v"], [[Val.str "A", vnum 7]]⟩ rfl rfl (by decide)).2.1
    rfl [Val.str "A", vnum 7] (by decide)

/-! ### C5: aggregation error taxonomy -/

/-- **C5.**  An unsupported function name fails with the
unknown-function error (checked before any column access); with a
supported function, a missing groupBy column fails with the
column-not-found error for that name, and a missing target column with
the column-not-found error for the target; the two error kinds are
distinct.  The embedding's `aggregate_data` does not touch its input
table, which therefore remains valid. -/
theorem C5_agg_errors (t : Table) (g v f : String) :
    (¬ (f ∈ supportedFuncs) →
      aggregate_data t g v f = Except.error (AggError.unknownFunction f)) ∧
    (f ∈ supportedFuncs → ¬ (g ∈ t.cols) →
      aggregate_data t g v f = Except.error (AggError.columnNotFound g)) ∧
    (f ∈ supportedFuncs → g ∈ t.cols → ¬ (v ∈ t.cols) →
      aggregate_data t g v f = Except.error (AggError.columnNotFound v)) ∧
    (∀ s c : String, AggError.unknownFunction s ≠ AggError.columnNotFound c) := by
  refine ⟨?_, ?_, ?_, ?_⟩
  · intro hf
    unfold aggregate_data
    rw [if_pos]
    simpa [contains_iff_mem] using hf
  · intro hf hg
    unfold aggregate_data
    rw [if_neg, colIdx_eq_none_iff.mpr hg]
    simpa [contains_iff_mem] using hf
  · intro hf hg hv
    unfold aggregate_data
    rw [if_neg]
    · cases hgi : colIdx t g with
      | none => exact absurd (colIdx_eq_none_iff.mp hgi) (by simpa using hg)
      | some gi => rw [colIdx_eq_none_iff.mpr hv]
    · simpa [contains_iff_mem] using hf
  · intro s c hne
    exact AggError.noConfusion hne

theorem C5_agg_errors_witness :
    aggregate_data sampleTable "Category" "Value" "median" =
      Except.error (AggError.unknownFunction "median") ∧
    aggregate_data sampleTable "nope" "Value" "sum" =
      Except.error (AggError.columnNotFound "nope") ∧
    aggregate_data sampleTable "Category" "nope" "sum" =
      Except.error (AggError.columnNotFound "nope") :=
  ⟨(C5_agg_errors sampleTable "Category" "Value" "median").1 (by decide),
   (C5_agg_errors sampleTable "nope" "Value" "sum").2.1 (by decide) (by decide),
   (C5_agg_errors sampleTable "Category" "nope" "sum").2.2.1 (by decide)
     (by decide) (by decide)⟩

/-! ### C6: filter algebra -/

/-- **C6, counterexample.**  The claim says `apply` never raises for any
filter set; a numeric range filter over a string column raises a
`TypeError` in the source (`filtered_data[column] >= min_val` with
incomparable operands), modelled by the error result. -/
theorem C6_counterexample :
    isErr (apply_filters strColTable
      [("a", ColumnFilter.range (vnum 1) (vnum 5))]) = true := by
  decide

/-- **C6, amended.**  An empty filter set returns a table equal to the
input by value; filter entries naming a column absent from the table are
silently ignored (deleting them does not change the result); and `apply`
never raises provided every range entry compares without a `TypeError`
against its column's cells (in particular for membership-only filter
sets, and for numeric bounds on numeric-or-missing columns) — a range
filter with incomparable operands, as in the counterexample, does
raise. -/
theorem C6_filters (t : Table) (fs : List (String × ColumnFilter)) :
    apply_filters t [] = Except.ok t ∧
    apply_filters t fs =
      apply_filters t (fs.filter (fun e => t.cols.contains e.1)) ∧
    (rangeEntriesComparable t fs = true →
      isErr (apply_filters t fs) = false) := by
  refine ⟨rfl, apply_filters_ignores t fs, ?_⟩
  intro hcomp
  exact apply_filters_no_error_aux t fs t rfl (fun r hr => hr) hcomp

theorem C6_filters_witness :
    isErr (apply_filters filterTable
      [("a", ColumnFilter.range (vnum 1) (vnum 5))]) = false :=
  (C6_filters filterTable
    [("a", ColumnFilter.range (vnum 1) (vnum 5))]).2.2 (by decide)

/-! ### C7: range filter semantics -/

/-- **C7.**  A single range filter on an existing column keeps exactly
the rows whose cell passes the inclusive `[min, max]` test (no satisfying
row is dropped), preserves the relative order of the surviving rows (the
output is a `List.filter` of the input rows) and keeps all columns; on
numeric cells with numeric bounds the test is exactly
`min <= cell ∧ cell <= max`. -/
theorem C7_range_filter (t : Table) (c : String) (i : Nat) (lo hi : Val)
    (t' : Table) (hc : colIdx t c = some i)
    (h : apply_filters t [(c, ColumnFilter.range lo hi)] = Except.ok t') :
    t'.cols = t.cols ∧
    t'.rows = t.rows.filter (fun r => rangeKeepB (cellAt r i) lo hi) ∧
    (∀ q a b : Frac, rangeKeepB (Val.num q) (Val.num a) (Val.num b) = true ↔
      (Frac.le a q = true ∧ Frac.le q b = true)) := by
  obtain ⟨h1, h2⟩ := applyRange_ok hc h
  refine ⟨h1, h2, ?_⟩
  intro q a b
  show okBool (rowKeepRange (Val.num q) (Val.num a) (Val.num b)) = true ↔ _
  simp [rowKeepRange, geVal, leVal, except_bind_ok, except_pure, okBool]

theorem C7_range_filter_witness :
    (⟨["a", "b"], [[vnum 3, Val.str "x"]]⟩ : Table).rows =
      filterTable.rows.filter
        (fun r => rangeKeepB (cellAt r 0) (vnum 1) (vnum 5)) :=
  (C7_range_filter filterTable "a" 0 (vnum 1) (vnum 5)
    ⟨["a", "b"], [[vnum 3, Val.str "x"]]⟩ rfl (by decide)).2.1

/-! ### C10: missing cells never satisfy a range filter -/

/-- **C10.**  Under a range filter on an existing column, every surviving
row has a non-missing cell in that column: missing values never satisfy
a range filter (NaN comparisons are `False` on both bounds). -/
theorem C10_range_missing_excluded (t : Table) (c : String) (i : Nat)
    (lo hi : Val) (t' : Table) (hc : colIdx t c = some i)
    (h : apply_filters t [(c, ColumnFilter.range lo hi)] = Except.ok t') :
    ∀ r ∈ t'.rows, cellAt r i ≠ Val.missing := by
  obtain ⟨h1, h2⟩ := applyRange_ok hc h
  intro r hr hmiss
  rw [h2, List.mem_filter] at hr
  have hkeep := hr.2
  rw [hmiss] at hkeep
  simp [rangeKeepB, okBool, rowKeepRange, geVal, leVal,
    except_bind_ok, except_pure] at hkeep

theorem C10_range_missing_excluded_witness :
    cellAt [vnum 3, Val.str "x"] 0 ≠ Val.missing :=
  C10_range_missing_excluded filterTable "a" 0 (vnum 1) (vnum 5)
    ⟨["a", "b"], [[vnum 3, Val.str "x"]]⟩ rfl (by decide)
    [vnum 3, Val.str "x"] (by decide)

/-! ### C4: chart mapping returns placeholders, never exceptions -/

theorem barPlaceholder_iff (t : Table) (cfg : ChartConfig) :
    isPlaceholder (createBarChart t cfg) = true ↔
      (isBlank cfg.x = true ∨ isBlank cfg.y = true ∨
       ¬ (cfg.x.getD "" ∈ t.cols) ∨ ¬ (cfg.y.getD "" ∈ t.cols)) := by
  by_cases hbx : isBlank cfg.x = true <;>
    by_cases hby : isBlank cfg.y = true <;>
    by_cases hmx : cfg.x.getD "" ∈ t.cols <;>
    by_cases hmy : cfg.y.getD "" ∈ t.cols <;>
    simp [createBarChart, isPlaceholder, hbx, hby, hmx, hmy,
      contains_iff_mem, Bool.not_eq_true]

theorem scatterPlaceholder_iff (t : Table) (cfg : ChartConfig) :
    isPlaceholder (createScatterChart t cfg) = true ↔
      (isBlank cfg.x = true ∨ isBlank cfg.y = true ∨
       ¬ (cfg.x.getD "" ∈ t.cols) ∨ ¬ (cfg.y.getD "" ∈ t.cols)) := by
  by_cases hbx : isBlank cfg.x = true <;>
    by_cases hby : isBlank cfg.y = true <;>
    by_cases hmx : cfg.x.getD "" ∈ t.cols <;>
    by_cases hmy : cfg.y.getD "" ∈ t.cols <;>
    simp [createScatterChart, isPlaceholder, hbx, hby, hmx, hmy,
      contains_iff_mem, Bool.not_eq_true]

theorem linePlaceholder_iff (t : Table) (cfg : ChartConfig) :
    isPlaceholder (createLineChart t cfg) = true ↔
      (isBlank cfg.x = true ∨ isBlank cfg.y = true ∨
       ¬ (cfg.x.getD "" ∈ t.cols) ∨ ¬ (cfg.y.getD "" ∈ t.cols)) := by
  by_cases hbx : isBlank cfg.x = true <;>
    by_cases hby : isBlank cfg.y = true <;>
    cases hci : colIdx t (cfg.x.getD "") with
  | none =>
    have hmx : ¬ (cfg.x.getD "" ∈ t.cols) := colIdx_eq_none_iff.mp hci
    by_cases hmy : cfg.y.getD "" ∈ t.cols <;>
      simp [createLineChart, isPlaceholder, hbx, hby, hci, hmx, hmy,
        contains_iff_mem, Bool.not_eq_true]
  | some i =>
    have hmx : cfg.x.getD "" ∈ t.cols := by
      by_contra hmx
      rw [colIdx_eq_none_iff.mpr hmx] at hci
      exact Option.noConfusion hci
    by_cases hmy : cfg.y.getD "" ∈ t.cols <;>
      simp [createLineChart, isPlaceholder, hbx, hby, hci, hmx, hmy,
        contains_iff_mem, Bool.not_eq_true]

theorem piePlaceholder_iff (t : Table) (cfg : ChartConfig) :
    isPlaceholder (createPieChart t cfg) = true ↔
      (isBlank cfg.vals = true ∨ isBlank cfg.names = true ∨
       ¬ (cfg.vals.getD "" ∈ t.cols) ∨ ¬ (cfg.names.getD "" ∈ t.cols)) := by
  by_cases hbv : isBlank cfg.vals = true <;>
    by_cases hbn : isBlank cfg.names = true <;>
    cases hcn : colIdx t (cfg.names.getD "") with
  | none =>
    have hmn : ¬ (cfg.names.getD "" ∈ t.cols) := colIdx_eq_none_iff.mp hcn
    by_cases hmv : cfg.vals.getD "" ∈ t.cols <;>
      simp [createPieChart, isPlaceholder, hbv, hbn, hcn, hmn, hmv,
        contains_iff_mem, Bool.not_eq_true]
  | some ni =>
    have hmn : cfg.names.getD "" ∈ t.cols := by
      by_contra hmn
      rw [colIdx_eq_none_iff.mpr hmn] at hcn
      exact Option.noConfusion hcn
    cases hcv : colIdx t (cfg.vals.getD "") with
    | none =>
      have hmv : ¬ (cfg.vals.getD "" ∈ t.cols) := colIdx_eq_none_iff.mp hcv
      simp [createPieChart, isPlaceholder, hbv, hbn, hcn, hcv, hmn, hmv,
        contains_iff_mem, Bool.not_eq_true]
    | some vi =>
      have hmv : cfg.vals.getD "" ∈ t.cols := by
        by_contra hmv
        rw [colIdx_eq_none_iff.mpr hmv] at hcv
        exact Option.noConfusion hcv
      simp [createPieChart, isPlaceholder, hbv, hbn, hcn, hcv, hmn, hmv,
        contains_iff_mem, Bool.not_eq_true]

/-- **C4.**  `create_chart` is a total function into
`Chart | Placeholder` (the source's `try/except` downgrades any exception
to a placeholder; the modelled construction never raises), and it yields
a placeholder exactly when the table is empty, a required field of the
chart kind is unset (x and y for bar/line/scatter; values and names for
pie, empty strings counting as unset under Python truthiness), a
required-field column is absent from the table, or the kind is not one of
the four supported — and a chart otherwise. -/
theorem C4_chart_placeholder_iff (t : Table) (k : String) (cfg : ChartConfig) :
    isPlaceholder (create_chart t k cfg) = true ↔
      (t.rows = [] ∨ t.cols = [] ∨
       ((k = "bar" ∨ k = "line" ∨ k = "scatter") ∧
         (isBlank cfg.x = true ∨ isBlank cfg.y = true ∨
          ¬ (cfg.x.getD "" ∈ t.cols) ∨ ¬ (cfg.y.getD "" ∈ t.cols))) ∨
       (k = "pie" ∧
         (isBlank cfg.vals = true ∨ isBlank cfg.names = true ∨
          ¬ (cfg.vals.getD "" ∈ t.cols) ∨ ¬ (cfg.names.getD "" ∈ t.cols))) ∨
       (k ≠ "bar" ∧ k ≠ "line" ∧ k ≠ "scatter" ∧ k ≠ "pie")) := by
  by_cases hre : t.rows = []
  · have hcc : create_chart t k cfg =
        ChartResult.placeholder "No data available" := by
      unfold create_chart
      rw [if_pos]
      simp [hre]
    rw [hcc]
    exact iff_of_true rfl (Or.inl hre)
  · by_cases hce : t.cols = []
    · have hcc : create_chart t k cfg =
          ChartResult.placeholder "No data available" := by
        unfold create_chart
        rw [if_pos]
        simp [hce]
      rw [hcc]
      exact iff_of_true rfl (Or.inr (Or.inl hce))
    · have hne : ¬ ((t.rows.isEmpty || t.cols.isEmpty) = true) := by
        simp [List.isEmpty_eq_false, hre, hce]
      have hstep : create_chart t k cfg =
          (if k == "bar" then createBarChart t cfg
           else if k == "line" then createLineChart t cfg
           else if k == "scatter" then createScatterChart t cfg
           else if k == "pie" then createPieChart t cfg
           else ChartResult.placeholder ("Unsupported chart type: " ++ k)) := by
        unfold create_chart
        rw [if_neg hne]
      rw [hstep]
      by_cases hk1 : k = "bar"
      · subst hk1
        rw [if_pos (by rfl)]
        rw [barPlaceholder_iff]
        constructor
        · intro h
          exact Or.inr (Or.inr (Or.inl ⟨Or.inl rfl, h⟩))
        · intro h
          rcases h with h | h | ⟨_, h⟩ | ⟨h, _⟩ | ⟨h, _, _, _⟩
          · exact absurd h hre
          · exact absurd h hce
          · exact h
          · exact absurd h (by decide)
          · exact absurd rfl h
      · rw [if_neg (by simpa using hk1)]
        by_cases hk2 : k = "line"
        · subst hk2
          rw [if_pos (by rfl)]
          rw [linePlaceholder_iff]
          constructor
          · intro h
            exact Or.inr (Or.inr (Or.inl ⟨Or.inr (Or.inl rfl), h⟩))
          · intro h
            rcases h with h | h | ⟨_, h⟩ | ⟨h, _⟩ | ⟨_, h, _, _⟩
            · exact absurd h hre
            · exact absurd h hce
            · exact h
            · exact absurd h (by decide)
            · exact absurd rfl h
        · rw [if_neg (by simpa using hk2)]
          by_cases hk3 : k = "scatter"
          · subst hk3
            rw [if_pos (by rfl)]
            rw [scatterPlaceholder_iff]
            constructor
            · intro h
              exact Or.inr (Or.inr (Or.inl ⟨Or.inr (Or.inr rfl), h⟩))
            · intro h
              rcases h with h | h | ⟨_, h⟩ | ⟨h, _⟩ | ⟨_, _, h, _⟩
              · exact absurd h hre
              · exact absurd h hce
              · exact h
              · exact absurd h (by decide)
              · exact absurd rfl h
          · rw [if_neg (by simpa using hk3)]
            by_cases hk4 : k = "pie"
            · subst hk4
              rw [if_pos (by rfl)]
              rw [piePlaceholder_iff]
              constructor
              · intro h
                exact Or.inr (Or.inr (Or.inr (Or.inl ⟨rfl, h⟩)))
              · intro h
                rcases h with h | h | ⟨h, _⟩ | ⟨_, h⟩ | ⟨_, _, _, h⟩
                · exact absurd h hre
                · exact absurd h hce
                · rcases h with h | h | h <;> exact absurd h (by decide)
                · exact h
                · exact absurd rfl h
            · rw [if_neg (by simpa using hk4)]
              exact iff_of_true rfl
                (Or.inr (Or.inr (Or.inr (Or.inr ⟨hk1, hk2, hk3, hk4⟩))))

/-! ### C8: line charts render in ascending x order -/

/-- **C8.**  For a non-empty table and a valid line spec (x and y set,
non-empty and present), the mapper produces a chart whose data is a
permutation of the input rows sorted ascending by the x column (NaN
last), with all columns kept. -/
theorem C8_line_sorted (t : Table) (cfg : ChartConfig) (xc yc : String)
    (i : Nat) (hx : cfg.x = some xc) (hy : cfg.y = some yc)
    (hxs : xc ≠ "") (hys : yc ≠ "")
    (hxi : colIdx t xc = some i) (hymem : yc ∈ t.cols)
    (hrows : t.rows ≠ []) (hcols : t.cols ≠ []) :
    isPlaceholder (create_chart t "line" cfg) = false ∧
    (resultTable (create_chart t "line" cfg)).cols = t.cols ∧
    (resultTable (create_chart t "line" cfg)).rows.Perm t.rows ∧
    List.Sorted (fun r s => Val.leP (cellAt r i) (cellAt s i))
      (resultTable (create_chart t "line" cfg)).rows := by
  have hne : ¬ ((t.rows.isEmpty || t.cols.isEmpty) = true) := by
    simp [List.isEmpty_eq_false, hrows, hcols]
  have hblank : (isBlank cfg.x || isBlank cfg.y) = false := by
    rw [hx, hy]
    simp [isBlank, hxs, hys]
  have hcc : create_chart t "line" cfg =
      ChartResult.chart ⟨"line", sortRowsBy t i,
        "Line Chart: " ++ yc ++ " over " ++ xc⟩ := by
    unfold create_chart
    rw [if_neg hne, if_neg (by decide), if_pos (by rfl)]
    unfold createLineChart
    rw [if_neg (by simp [hblank])]
    have hgx : cfg.x.getD "" = xc := by rw [hx]; rfl
    have hgy : cfg.y.getD "" = yc := by rw [hy]; rfl
    simp [hgx, hgy, hxi, hymem]
  rw [hcc]
  refine ⟨rfl, rfl, ?_, ?_⟩
  · exact List.perm_insertionSort _ _
  · haveI : IsTotal (List Val)
        (fun r s => Val.leP (cellAt r i) (cellAt s i)) :=
      ⟨fun a b => valLe_total _ _⟩
    haveI : IsTrans (List Val)
        (fun r s => Val.leP (cellAt r i) (cellAt s i)) :=
      ⟨fun _ _ _ h1 h2 => valLe_trans h1 h2⟩
    exact List.sorted_insertionSort _ _

theorem C8_line_sorted_witness :
    (isPlaceholder (create_chart lineTable "line" lineCfg) = false ∧
     (resultTable (create_chart lineTable "line" lineCfg)).cols =
       lineTable.cols ∧
     (resultTable (create_chart lineTable "line" lineCfg)).rows.Perm
       lineTable.rows ∧
     List.Sorted (fun r s => Val.leP (cellAt r 0) (cellAt s 0))
       (resultTable (create_chart lineTable "line" lineCfg)).rows) ∧
    (resultTable (create_chart lineTable "line" lineCfg)).rows.map
      (fun r => cellAt r 0) = [vnum 1, vnum 2, vnum 3] :=
  ⟨C8_line_sorted lineTable lineCfg "x" "y" 0 rfl rfl (by decide)
      (by decide) rfl (by decide) (by decide) (by decide),
   by decide⟩

/-! ### C9: pie charts aggregate values by name -/

/-- **C9.**  For a non-empty table and a valid pie spec, the produced
chart's data has one slice per distinct non-missing name (no duplicate
slice labels; a label occurs exactly for the names occurring in the
table), and each slice's value is the sum of the numeric `values` cells
of the rows carrying that name. -/
theorem C9_pie_aggregates (t : Table) (cfg : ChartConfig) (vc nc : String)
    (ni vi : Nat) (hv : cfg.vals = some vc) (hn : cfg.names = some nc)
    (hvs : vc ≠ "") (hns : nc ≠ "")
    (hni : colIdx t nc = some ni) (hvi : colIdx t vc = some vi)
    (hrows : t.rows ≠ []) (hcols : t.cols ≠ []) :
    isPlaceholder (create_chart t "pie" cfg) = false ∧
    ((resultTable (create_chart t "pie" cfg)).rows.map
      (fun r => cellAt r 0)).Nodup ∧
    (∀ w : Val, w ≠ Val.missing →
      (w ∈ (resultTable (create_chart t "pie" cfg)).rows.map
        (fun r => cellAt r 0) ↔
       w ∈ t.rows.map (fun r => cellAt r ni))) ∧
    (∀ r ∈ (resultTable (create_chart t "pie" cfg)).rows,
      cellAt r 1 = Val.num (sumF (numsOf (groupVals t ni vi (cellAt r 0))))) := by
  have hne : ¬ ((t.rows.isEmpty || t.cols.isEmpty) = true) := by
    simp [List.isEmpty_eq_false, hrows, hcols]
  have hcc : create_chart t "pie" cfg =
      ChartResult.chart ⟨"pie", pieTable t ni vi nc vc,
        "Pie Chart: " ++ vc ++ " by " ++ nc⟩ := by
    unfold create_chart
    rw [if_neg hne, if_neg (by decide), if_neg (by decide),
      if_neg (by decide), if_pos (by rfl)]
    unfold createPieChart
    rw [if_neg (by rw [hv, hn]; simp [isBlank, hvs, hns])]
    have hgv : cfg.vals.getD "" = vc := by rw [hv]; rfl
    have hgn : cfg.names.getD "" = nc := by rw [hn]; rfl
    simp [hgv, hgn, hni, hvi]
  rw [hcc]
  have hmap : (resultTable (ChartResult.chart ⟨"pie", pieTable t ni vi nc vc,
      "Pie Chart: " ++ vc ++ " by " ++ nc⟩)).rows.map (fun r => cellAt r 0) =
      groupKeys (t.rows.map (fun r => cellAt r ni)) := by
    show (List.map _ (groupKeys _)).map _ = _
    rw [List.map_map]
    have : ((fun r => cellAt r 0) ∘
        fun k => [k, reduceVals "sum" (groupVals t ni vi k)]) = id := by
      funext k
      rfl
    rw [this, List.map_id]
  refine ⟨rfl, ?_, ?_, ?_⟩
  · rw [hmap]
    unfold groupKeys
    rw [(List.perm_insertionSort Val.leP _).nodup_iff]
    exact List.nodup_dedup _
  · intro w hw
    rw [hmap]
    unfold groupKeys
    rw [List.mem_insertionSort, List.mem_dedup, List.mem_filter]
    simp [hw]
  · intro r hr
    simp only [resultTable, pieTable, List.mem_map] at hr
    obtain ⟨k, hk, rfl⟩ := hr
    show reduceVals "sum" (groupVals t ni vi k) = _
    rfl

theorem C9_pie_aggregates_witness :
    cellAt [Val.str "A", vnum 7] 1 =
      Val.num (sumF (numsOf
        (groupVals pieTbl 0 1 (cellAt [Val.str "A", vnum 7] 0)))) ∧
    Val.num (sumF (numsOf (groupVals pieTbl 0 1 (Val.str "A")))) = vnum 7 :=
  ⟨(C9_pie_aggregates pieTbl pieCfg "v" "n" 0 1 rfl rfl (by decide)
      (by decide) rfl rfl (by decide) (by decide)).2.2.2
      [Val.str "A", vnum 7] (by decide),
   by decide⟩
